import Mathlib

/-!
Verification of the vehicle co-simulation node base class
(`src/src/chrono_vehicle/cosim/ChVehicleCosimBaseNode.h`).

The repository provides only the class header: the inline member functions,
the rank-layout macros and the exchanged data structures are source; the
out-of-line implementation (constructor defaults, `Initialize`, the MPI
sub-communicator split, `OutputFilename`) is modelled from the
specification where noted.
-/

namespace ChronoCosim

/-- Node roles, from `enum class NodeType { MBS, TERRAIN, TIRE }`. -/
inductive NodeType where
  | MBS
  | TERRAIN
  | TIRE
  deriving DecidableEq, Repr

/-- Tire/terrain communication interface, from
`enum class InterfaceType { BODY, MESH }`. -/
inductive InterfaceType where
  | BODY
  | MESH
  deriving DecidableEq, Repr

/-- Source macro `#define MBS_NODE_RANK 0` from the header. -/
def MBS_NODE_RANK : Nat := 0

/-- Source macro `#define TERRAIN_NODE_RANK 1` from the header. -/
def TERRAIN_NODE_RANK : Nat := 1

/-- Source macro `#define TIRE_NODE_RANK(i) (i+2)` from the header. -/
def TIRE_NODE_RANK (i : Nat) : Nat := i + 2

/-- A declared node slot of a co-simulation configuration: the single MBS
node, the j-th terrain node, or the i-th tire node. -/
inductive Slot where
  | mbs
  | terrain (j : Nat)
  | tire (i : Nat)
  deriving DecidableEq, Repr

/-- A slot is declared by a configuration with `tc` terrain nodes and
`nt` tire nodes (and the mandatory single MBS node). -/
def validSlot (tc nt : Nat) : Slot → Bool
  | .mbs => true
  | .terrain j => j < tc
  | .tire i => i < nt

/-- Total number of ranks of a configuration: one MBS node, `tc` terrain
nodes, `nt` tire nodes. -/
def numRanks (tc nt : Nat) : Nat := 1 + tc + nt

/-- Global MPI rank of a declared slot.  Modelled from the spec: rank 0 is
the MBS node (`MBS_NODE_RANK`), rank 1 the first terrain node
(`TERRAIN_NODE_RANK`), tire node i sits at rank i+2 (`TIRE_NODE_RANK`);
the remaining terrain nodes occupy the ranks after the tire nodes, the
only layout consistent with the fixed macros and a bijection onto the
declared slots. -/
def rankOfSlot (nt : Nat) : Slot → Nat
  | .mbs => MBS_NODE_RANK
  | .terrain j => if j = 0 then TERRAIN_NODE_RANK else nt + 1 + j
  | .tire i => TIRE_NODE_RANK i

/-- Role resolution: the slot sitting at a given global rank, `none` for a
rank outside the declared total.  Modelled from the spec: deterministic
function of the rank and the declared counts, inverse of `rankOfSlot`. -/
def slotOfRank (tc nt rank : Nat) : Option Slot :=
  if rank = 0 then some Slot.mbs
  else if rank = 1 then some (Slot.terrain 0)
  else if rank < nt + 2 then some (Slot.tire (rank - 2))
  else if rank < numRanks tc nt then some (Slot.terrain (rank - nt - 1))
  else none

/-- The role (`NodeType`) of a slot. -/
def slotType : Slot → NodeType
  | .mbs => .MBS
  | .terrain _ => .TERRAIN
  | .tire _ => .TIRE

/-- Whether the node at a global rank has the TERRAIN role. -/
def isTerrainRank (tc nt r : Nat) : Bool :=
  ((slotOfRank tc nt r).map fun s => slotType s == NodeType.TERRAIN).getD false

/-- An MPI communicator handle, as far as this protocol observes it:
either `MPI_COMM_NULL` or the terrain intra-communicator produced by the
split.  Modelled from the spec. -/
inductive MPIComm where
  | null
  | terrainSub
  deriving DecidableEq, Repr

/-- Global ranks of all TERRAIN processes, in ascending order. -/
def terrainRanks (tc nt : Nat) : List Nat :=
  (List.range (numRanks tc nt)).filter (fun r => isTerrainRank tc nt r)

/-- The field `m_sub_communicator` as established during `Initialize`.  Modelled
from the spec: the terrain intra-communicator is created iff more than one
node is of type TERRAIN, and only terrain nodes belong to it; every other
node holds `MPI_COMM_NULL`.  `TerrainCommunicator()` returns this field
(inline in the header). -/
def m_sub_communicator (tc nt rank : Nat) : MPIComm :=
  if 1 < tc && isTerrainRank tc nt rank then MPIComm.terrainSub else MPIComm.null

/-- The field `m_sub_rank` as established during `Initialize`.  Modelled from the
spec: when the terrain intra-communicator exists, a terrain node's
sub-rank is its position in the ascending list of terrain global ranks
(the MPI split keyed by global rank); every other node keeps -1.
`TerrainRank()` returns this field (inline in the header). -/
def m_sub_rank (tc nt rank : Nat) : Int :=
  if 1 < tc && isTerrainRank tc nt rank then
    ((terrainRanks tc nt).findIdx (fun x => x == rank) : Int)
  else -1

/-- Decimal digit list of `n`, most-significant digit first, as the
`printf` `%d` conversion renders it (a single `0` for zero).  Modelled
from the spec: `OutputFilename` is implemented out of line. -/
def decDigits (n : Nat) : List Nat :=
  if n = 0 then [0] else (Nat.digits 10 n).reverse

/-- Character list of the frame field: the decimal digits of `frame`
zero-padded on the left to `width` characters, as the `printf`
format `%0{width}d` renders a nonnegative value (never truncating).
Modelled from the spec. -/
def zeroPadList (frame width : Nat) : List Char :=
  let d := (decDigits frame).map Nat.digitChar
  List.replicate (width - d.length) '0' ++ d

/-- The zero-padded frame field as a string. -/
def zeroPad (frame width : Nat) : String := String.mk (zeroPadList frame width)

/-- The utility `OutputFilename(dir, root, ext, frame, frame_digits)`.  Modelled from
the spec: returns `"{dir}/{root}_{frame}.{ext}"` where `{frame}` is
printed with the format `"%0{frame_digits}d"`; the implementation is out
of line, only its declaration is in the header. -/
def OutputFilename (dir root ext : String) (frame frame_digits : Nat) : String :=
  dir ++ "/" ++ root ++ "_" ++ zeroPad frame frame_digits ++ "." ++ ext

/-- Numeric value of a decimal digit character. -/
def digitVal (c : Char) : Nat := c.toNat - 48

/-- Parse a nonempty all-digit string back to the integer it denotes, as
`strtol`/`%d` scanning would.  Modelled from the spec. -/
def parseDecimal (s : String) : Option Nat :=
  if !s.data.isEmpty && s.data.all Char.isDigit then
    some (s.data.foldl (fun acc c => 10 * acc + digitVal c) 0)
  else none

/-- The type `ChVector<T>`: a 3-component vector (source: `chrono/core/ChVector.h`,
used here with `double` and `int` components). -/
structure ChVector (α : Type) where
  x : α
  y : α
  z : α
  deriving DecidableEq, Repr

/-- The `struct MeshData` from the header: static mesh geometry. -/
structure MeshData where
  nv : Nat
  nn : Nat
  nt : Nat
  verts : List (ChVector ℚ)
  norms : List (ChVector ℚ)
  idx_verts : List (ChVector Int)
  idx_norms : List (ChVector Int)
  deriving DecidableEq, Repr

/-- The `struct MeshState` from the header: per-vertex absolute-frame
position and velocity. -/
structure MeshState where
  vpos : List (ChVector ℚ)
  vvel : List (ChVector ℚ)
  deriving DecidableEq, Repr

/-- The `struct MeshContact` from the header: sparse per-vertex contact
forces. -/
structure MeshContact where
  nv : Int
  vidx : List Int
  vforce : List (ChVector ℚ)
  deriving DecidableEq, Repr

/-- The zero vector. -/
def zeroVec : ChVector ℚ := ⟨0, 0, 0⟩

/-- Modelled from the spec: the terrain node's production of a
`MeshContact` in a `Synchronize` round: given the per-vertex contact
forces computed by the terrain backend (one per mesh vertex), it lists
exactly the vertices experiencing a nonzero force, with their indices and
forces, and `nv` is the number of vertices in contact. -/
def mkMeshContact (forces : List (ChVector ℚ)) : MeshContact :=
  let hits := (List.range forces.length).filter
    (fun i => decide (forces.getD i zeroVec ≠ zeroVec))
  { nv := (hits.length : Int),
    vidx := hits.map Int.ofNat,
    vforce := hits.map (fun i => forces.getD i zeroVec) }

/-- The data members of `ChVehicleCosimBaseNode` (the `m_outf` output
file stream, an OS handle, is not represented). -/
structure BaseNodeState where
  m_rank : Int
  m_sub_communicator : MPIComm
  m_sub_rank : Int
  m_step_size : ℚ
  m_name : String
  m_out_dir : String
  m_node_out_dir : String
  m_num_mbs_nodes : Nat
  m_num_terrain_nodes : Nat
  m_num_tire_nodes : Nat
  m_timer : ℚ
  m_cum_sim_time : ℚ
  m_verbose : Bool
  deriving DecidableEq, Repr

/-- The constructor `ChVehicleCosimBaseNode(name)`.  Modelled from the
spec: step size defaults to 1e-4 seconds, verbosity to on, both timers to
zero; no sub-communicator yet and sub-rank -1. -/
def constructNode (name : String) : BaseNodeState :=
  { m_rank := 0
    m_sub_communicator := MPIComm.null
    m_sub_rank := -1
    m_step_size := 1 / 10000
    m_name := name
    m_out_dir := ""
    m_node_out_dir := ""
    m_num_mbs_nodes := 0
    m_num_terrain_nodes := 0
    m_num_tire_nodes := 0
    m_timer := 0
    m_cum_sim_time := 0
    m_verbose := true }

/-- Source member `void SetStepSize(double step) { m_step_size = step; }` (inline in
the header). -/
def SetStepSize (n : BaseNodeState) (step : ℚ) : BaseNodeState :=
  { n with m_step_size := step }

/-- Source member `double GetStepSize() const { return m_step_size; }` (inline in the
header). -/
def GetStepSize (n : BaseNodeState) : ℚ := n.m_step_size

/-- Source member `void SetVerbose(bool verbose) { m_verbose = verbose; }` (inline in
the header). -/
def SetVerbose (n : BaseNodeState) (verbose : Bool) : BaseNodeState :=
  { n with m_verbose := verbose }

/-- Source member `double GetStepExecutionTime() const { return m_timer.GetTimeSeconds(); }`
(inline in the header): the reading of the step timer. -/
def GetStepExecutionTime (n : BaseNodeState) : ℚ := n.m_timer

/-- Source member `double GetTotalExecutionTime() const { return m_cum_sim_time; }`
(inline in the header). -/
def GetTotalExecutionTime (n : BaseNodeState) : ℚ := n.m_cum_sim_time

/-- Modelled from the spec: the timing effect of one `Advance` call whose
local integration consumes wall time `d`: the step timer is restarted at
the beginning of the call, so it ends up reading `d`, and the cumulative
timer accumulates `d`. -/
def advanceTimed (n : BaseNodeState) (d : ℚ) : BaseNodeState :=
  { n with m_timer := d, m_cum_sim_time := n.m_cum_sim_time + d }

/-- A sequence of `Advance` calls with the given measured step times. -/
def runAdvances (n : BaseNodeState) (ds : List ℚ) : BaseNodeState :=
  ds.foldl advanceTimed n

/-- The base-class `WriteCheckpoint` (source:
`virtual void WriteCheckpoint(const std::string& filename) const {}`):
it returns the unchanged node together with the list of files it creates,
which is empty. -/
def WriteCheckpoint (n : BaseNodeState) (filename : String) :
    BaseNodeState × List String := (n, [])

/-- A configuration call on a node: `SetStepSize` or `SetVerbose`. -/
inductive ConfigOp where
  | setStep (step : ℚ)
  | setVerbose (verbose : Bool)
  deriving DecidableEq, Repr

/-- Apply one configuration call. -/
def applyConfigOp (n : BaseNodeState) : ConfigOp → BaseNodeState
  | .setStep s => SetStepSize n s
  | .setVerbose v => SetVerbose n v

/-- Apply a sequence of configuration calls to a freshly constructed
node. -/
def applyConfigOps (name : String) (ops : List ConfigOp) : BaseNodeState :=
  ops.foldl applyConfigOp (constructNode name)

/-- Whether a sequence of configuration calls contains no `SetStepSize`. -/
def noSetStep (ops : List ConfigOp) : Bool :=
  ops.all fun op =>
    match op with
    | .setStep _ => false
    | .setVerbose _ => true

/-- A protocol operation invoked on a node by the driver.  `init` stands
for the `Initialize` member function; the others are `Synchronize`,
`Advance`, `OutputData` and `WriteCheckpoint`, with the argument types of
their C++ signatures. -/
inductive CosimOp where
  | init
  | synchronize (step_number : Int) (time : ℚ)
  | advance (step_size : ℚ)
  | outputData (frame : Int)
  | writeCheckpoint (filename : String)
  deriving DecidableEq, Repr

/-- A cross-node message observable on the transport.  Modelled from the
spec: the one-time geometry handshake and the per-tire state/force
exchange of a synchronization round. -/
inductive CosimMessage where
  | geometry (tire : Nat)
  | state (tire : Nat)
  | force (tire : Nat)
  deriving DecidableEq, Repr

/-- Modelled from the spec: the cross-node messages each protocol
operation emits in a configuration with `num_tires` tires: `Initialize`
may perform the one-time geometry handshake, every `Synchronize`
exchanges one state and one force message per tire, and `Advance`,
`OutputData` and `WriteCheckpoint` perform purely local work and emit
none. -/
def emits (num_tires : Nat) : CosimOp → List CosimMessage
  | .init => (List.range num_tires).map CosimMessage.geometry
  | .synchronize _ _ =>
      (List.range num_tires).flatMap fun i => [CosimMessage.state i, CosimMessage.force i]
  | .advance _ => []
  | .outputData _ => []
  | .writeCheckpoint _ => []

/-- The full communication trace of a sequence of operations. -/
def runTrace (num_tires : Nat) (ops : List CosimOp) : List CosimMessage :=
  ops.flatMap (emits num_tires)

/-- Lifecycle states of a node.  Modelled from the spec:
`Uninitialized → Initialized → {SynchronizingStep ⇄ Advancing}`. -/
inductive LifecycleState where
  | uninitialized
  | initialized
  | synchronized
  | advanced
  deriving DecidableEq, Repr

/-- Fatal precondition violations of the lifecycle protocol. -/
inductive ProtocolError where
  | beforeInit
  | doubleInit
  | advanceBeforeSync
  deriving DecidableEq, Repr

/-- Modelled from the spec: the lifecycle state machine.  `Initialize`
must be the first call and must not be repeated; `Synchronize` or
`Advance` before `Initialize` is fatal, as is `Advance` before the first
`Synchronize`; `OutputData` and `WriteCheckpoint` leave the state
unchanged. -/
def lifecycleStep : LifecycleState → CosimOp → Except ProtocolError LifecycleState
  | .uninitialized, .init => .ok .initialized
  | .uninitialized, _ => .error .beforeInit
  | _, .init => .error .doubleInit
  | .initialized, .advance _ => .error .advanceBeforeSync
  | _, .synchronize _ _ => .ok .synchronized
  | _, .advance _ => .ok .advanced
  | s, .outputData _ => .ok s
  | s, .writeCheckpoint _ => .ok s

/-- Run the lifecycle machine from a state over a sequence of calls,
stopping at the first fatal violation. -/
def runFrom : LifecycleState → List CosimOp → Except ProtocolError LifecycleState
  | s, [] => .ok s
  | s, op :: ops =>
    match lifecycleStep s op with
    | .ok s1 => runFrom s1 ops
    | .error e => .error e

/-- Run a node's whole call sequence from construction. -/
def runLifecycle (ops : List CosimOp) : Except ProtocolError LifecycleState :=
  runFrom LifecycleState.uninitialized ops

/-- Whether an operation is a `Synchronize` call. -/
def isSync : CosimOp → Bool
  | .synchronize _ _ => true
  | _ => false

/-- Whether an operation is an `Initialize` call. -/
def isInit : CosimOp → Bool
  | .init => true
  | _ => false

/-- Number of `Initialize` calls in a sequence. -/
def countInit (ops : List CosimOp) : Nat := ops.countP isInit

/-- The calls issued before the first `Synchronize`. -/
def beforeFirstSync (ops : List CosimOp) : List CosimOp :=
  ops.takeWhile fun op => !isSync op

/-- The function `rankOfSlot` lands in range and `slotOfRank` inverts it on every
declared slot. -/
theorem slotOfRank_rankOfSlot (tc nt : Nat) (htc : 1 ≤ tc) (s : Slot)
    (hs : validSlot tc nt s = true) :
    rankOfSlot nt s < numRanks tc nt ∧ slotOfRank tc nt (rankOfSlot nt s) = some s := by
  cases s with
  | mbs =>
    refine ⟨?_, ?_⟩
    · simp only [rankOfSlot, MBS_NODE_RANK, numRanks]; omega
    · simp [rankOfSlot, slotOfRank, MBS_NODE_RANK]
  | terrain j =>
    have hs' : j < tc := by simpa [validSlot] using hs
    by_cases hj : j = 0
    · subst hj
      refine ⟨?_, ?_⟩
      · have h : rankOfSlot nt (Slot.terrain 0) = 1 := by
          simp [rankOfSlot, TERRAIN_NODE_RANK]
        rw [h]
        simp only [numRanks]
        omega
      · simp [rankOfSlot, slotOfRank, TERRAIN_NODE_RANK]
    · have h : rankOfSlot nt (Slot.terrain j) = nt + 1 + j := by
        simp [rankOfSlot, hj]
      refine ⟨?_, ?_⟩
      · rw [h]
        simp only [numRanks]
        omega
      · rw [h]
        simp only [slotOfRank, numRanks]
        rw [if_neg (by omega), if_neg (by omega), if_neg (by omega), if_pos (by omega)]
        have he : nt + 1 + j - nt - 1 = j := by omega
        rw [he]
  | tire i =>
    have hs' : i < nt := by simpa [validSlot] using hs
    refine ⟨?_, ?_⟩
    · simp only [rankOfSlot, TIRE_NODE_RANK, numRanks]; omega
    · simp only [rankOfSlot, TIRE_NODE_RANK, slotOfRank]
      rw [if_neg (by omega), if_neg (by omega), if_pos (by omega)]
      have he : i + 2 - 2 = i := by omega
      rw [he]

/-- Every in-range rank resolves to a declared slot whose rank it is. -/
theorem slotOfRank_surjective (tc nt : Nat) (htc : 1 ≤ tc) (r : Nat)
    (hr : r < numRanks tc nt) :
    ∃ s, validSlot tc nt s = true ∧ slotOfRank tc nt r = some s ∧ rankOfSlot nt s = r := by
  by_cases h0 : r = 0
  · exact ⟨Slot.mbs, by simp [validSlot], by simp [slotOfRank, h0],
      by simp [rankOfSlot, MBS_NODE_RANK, h0]⟩
  by_cases h1 : r = 1
  · refine ⟨Slot.terrain 0, by simp [validSlot]; omega, ?_, ?_⟩
    · simp [slotOfRank, h0, h1]
    · simp [rankOfSlot, TERRAIN_NODE_RANK, h1]
  by_cases h2 : r < nt + 2
  · refine ⟨Slot.tire (r - 2), by simp [validSlot]; omega, ?_, ?_⟩
    · simp only [slotOfRank]
      rw [if_neg h0, if_neg h1, if_pos h2]
    · simp only [rankOfSlot, TIRE_NODE_RANK]
      omega
  · refine ⟨Slot.terrain (r - nt - 1), by simp [validSlot]; simp only [numRanks] at hr; omega,
      ?_, ?_⟩
    · simp only [slotOfRank]
      rw [if_neg h0, if_neg h1, if_neg h2, if_pos hr]
    · simp only [rankOfSlot]
      rw [if_neg (by omega)]
      omega

/-- C1: Role resolution follows the fixed rank convention: rank 0 is the
MBS node, rank 1 the first TERRAIN node, tire node i rank i+2; for every
valid configuration (one MBS node, at least one terrain node) the
rank-to-slot mapping is a deterministic function and a bijection onto the
declared node slots. -/
theorem rank_role_bijection (tc nt : Nat) (htc : 1 ≤ tc) :
    slotOfRank tc nt MBS_NODE_RANK = some Slot.mbs ∧
    slotOfRank tc nt TERRAIN_NODE_RANK = some (Slot.terrain 0) ∧
    (∀ i, i < nt → slotOfRank tc nt (TIRE_NODE_RANK i) = some (Slot.tire i)) ∧
    (∀ s, validSlot tc nt s = true →
      rankOfSlot nt s < numRanks tc nt ∧ slotOfRank tc nt (rankOfSlot nt s) = some s) ∧
    (∀ r, r < numRanks tc nt →
      ∃ s, validSlot tc nt s = true ∧ slotOfRank tc nt r = some s ∧ rankOfSlot nt s = r) := by
  refine ⟨?_, ?_, ?_, ?_, ?_⟩
  · simp [slotOfRank, MBS_NODE_RANK]
  · simp [slotOfRank, TERRAIN_NODE_RANK]
  · intro i hi
    simpa [rankOfSlot, TIRE_NODE_RANK] using
      (slotOfRank_rankOfSlot tc nt htc (Slot.tire i) (by simp [validSlot, hi])).2
  · exact fun s hs => slotOfRank_rankOfSlot tc nt htc s hs
  · exact fun r hr => slotOfRank_surjective tc nt htc r hr

/-- C1 witness: in the configuration with 2 terrain nodes and 3 tire
nodes, tire node 1 sits at global rank 3 and resolves back to itself. -/
theorem rank_role_bijection_witness :
    slotOfRank 2 3 (TIRE_NODE_RANK 1) = some (Slot.tire 1) :=
  (rank_role_bijection 2 3 (by decide)).2.2.1 1 (by decide)

/-- On a list sorted by `<`, `findIdx` of an equality test is strictly
monotone in the sought element. -/
theorem findIdx_lt_findIdx_of_sorted (l : List Nat) (hp : List.Pairwise (· < ·) l)
    (a b : Nat) (ha : a ∈ l) (hb : b ∈ l) (hab : a < b) :
    l.findIdx (fun x => x == a) < l.findIdx (fun x => x == b) := by
  induction l with
  | nil => cases ha
  | cons x t ih =>
    rw [List.pairwise_cons] at hp
    obtain ⟨hx, ht⟩ := hp
    by_cases hxa : x = a
    · have hbx : (x == b) = false := by
        simp only [beq_eq_false_iff_ne, ne_eq]
        omega
      rw [List.findIdx_cons, List.findIdx_cons, hbx]
      have hax : (x == a) = true := by simp [hxa]
      rw [hax]
      simp
    · have hxb : x ≠ b := by
        intro hxb
        have hat : a ∈ t := by
          rcases List.mem_cons.mp ha with h | h
          · exact absurd h.symm hxa
          · exact h
        have := hx a hat
        omega
      have hat : a ∈ t := by
        rcases List.mem_cons.mp ha with h | h
        · exact absurd h.symm hxa
        · exact h
      have hbt : b ∈ t := by
        rcases List.mem_cons.mp hb with h | h
        · exact absurd h.symm hxb
        · exact h
      have hax : (x == a) = false := by simp [hxa]
      have hbx : (x == b) = false := by simp [hxb]
      rw [List.findIdx_cons, List.findIdx_cons, hax, hbx]
      simpa using ih ht hat hbt

/-- The list of terrain global ranks is sorted by `<`. -/
theorem terrainRanks_sorted (tc nt : Nat) :
    List.Pairwise (· < ·) (terrainRanks tc nt) :=
  (List.pairwise_lt_range (numRanks tc nt)).filter _

/-- A terrain rank in range belongs to `terrainRanks`. -/
theorem mem_terrainRanks (tc nt r : Nat) (hr : r < numRanks tc nt)
    (ht : isTerrainRank tc nt r = true) : r ∈ terrainRanks tc nt := by
  simp only [terrainRanks, List.mem_filter, List.mem_range]
  exact ⟨hr, ht⟩

/-- C2: the terrain sub-communicator is non-null iff more than one
terrain node is declared and the node's role is TERRAIN; every other node
gets the null communicator and sub-rank -1; when the sub-communicator
exists the terrain sub-ranks are ordered by ascending global rank. -/
theorem terrain_subcomm_spec (tc nt : Nat) (htc : 1 ≤ tc) :
    (∀ r, m_sub_communicator tc nt r ≠ MPIComm.null ↔
      1 < tc ∧ isTerrainRank tc nt r = true) ∧
    (∀ r, ¬(1 < tc ∧ isTerrainRank tc nt r = true) → m_sub_rank tc nt r = -1) ∧
    (1 < tc → ∀ r1 r2, r1 < numRanks tc nt → r2 < numRanks tc nt →
      isTerrainRank tc nt r1 = true → isTerrainRank tc nt r2 = true → r1 < r2 →
      m_sub_rank tc nt r1 < m_sub_rank tc nt r2) := by
  refine ⟨?_, ?_, ?_⟩
  · intro r
    by_cases h1 : 1 < tc
    · by_cases h2 : isTerrainRank tc nt r = true
      · simp [m_sub_communicator, h1, h2]
      · simp [m_sub_communicator, h1, h2]
    · simp [m_sub_communicator, h1]
  · intro r h
    rcases not_and_or.mp h with h1 | h2
    · simp [m_sub_rank, h1]
    · have h2' : isTerrainRank tc nt r = false := by
        cases hb : isTerrainRank tc nt r
        · rfl
        · exact absurd hb h2
      simp [m_sub_rank, h2']
  · intro h1 r1 r2 hr1 hr2 ht1 ht2 hlt
    have hc1 : (decide (1 < tc) && isTerrainRank tc nt r1) = true := by
      simp [h1, ht1]
    have hc2 : (decide (1 < tc) && isTerrainRank tc nt r2) = true := by
      simp [h1, ht2]
    simp only [m_sub_rank, if_pos hc1, if_pos hc2]
    exact_mod_cast findIdx_lt_findIdx_of_sorted (terrainRanks tc nt)
      (terrainRanks_sorted tc nt) r1 r2
      (mem_terrainRanks tc nt r1 hr1 ht1) (mem_terrainRanks tc nt r2 hr2 ht2) hlt

/-- C2 witness: with 2 terrain nodes and 1 tire node, the terrain nodes
at global ranks 1 and 3 have strictly increasing sub-ranks. -/
theorem terrain_subcomm_spec_witness : m_sub_rank 2 1 1 < m_sub_rank 2 1 3 :=
  (terrain_subcomm_spec 2 1 (by decide)).2.2 (by decide) 1 3 (by decide) (by decide)
    (by rfl) (by rfl) (by decide)

/-- C3: `OutputFilename` produces exactly
`"{dir}/{root}_{frame_padded}.{ext}"`, the frame field being the decimal
digits of the frame zero-padded on the left to `frame_digits`
characters, and is deterministic. -/
theorem outputFilename_format (dir root ext : String) (frame fd : Nat) :
    (OutputFilename dir root ext frame fd).data
      = dir.data ++ ['/'] ++ root.data ++ ['_']
          ++ zeroPadList frame fd ++ ['.'] ++ ext.data ∧
    (zeroPadList frame fd).length = max fd (decDigits frame).length ∧
    zeroPadList frame fd
      = List.replicate (fd - (decDigits frame).length) '0'
          ++ (decDigits frame).map Nat.digitChar ∧
    (∀ d2 r2 e2 f2 k2, d2 = dir → r2 = root → e2 = ext → f2 = frame → k2 = fd →
      OutputFilename d2 r2 e2 f2 k2 = OutputFilename dir root ext frame fd) := by
  refine ⟨?_, ?_, ?_, ?_⟩
  · simp [OutputFilename, zeroPad, String.data_append]
  · simp only [zeroPadList, List.length_append, List.length_replicate, List.length_map]
    omega
  · simp [zeroPadList]
  · intro d2 r2 e2 f2 k2 h1 h2 h3 h4 h5
    rw [h1, h2, h3, h4, h5]

/-- Folding the decimal accumulator over leading zero characters keeps
the accumulator at zero. -/
theorem foldl_digit_replicate_zero (k : Nat) :
    List.foldl (fun acc c => 10 * acc + digitVal c) 0 (List.replicate k '0') = 0 := by
  induction k with
  | zero => rfl
  | succ m ih =>
    rw [List.replicate_succ, List.foldl_cons]
    have h : 10 * 0 + digitVal '0' = 0 := by decide
    rw [h]
    exact ih

/-- Folding the decimal accumulator over a reversed little-endian digit
list computes `Nat.ofDigits`. -/
theorem foldl_reverse_ofDigits (l : List Nat) :
    ∀ a : Nat, List.foldl (fun acc d => 10 * acc + d) a l.reverse
      = a * 10 ^ l.length + Nat.ofDigits 10 l := by
  induction l with
  | nil => intro a; simp [Nat.ofDigits_nil]
  | cons d t ih =>
    intro a
    rw [List.reverse_cons, List.foldl_append, ih a, List.foldl_cons]
    simp only [List.foldl_nil, List.length_cons, Nat.ofDigits_cons]
    ring

/-- Every entry of `decDigits` is a decimal digit. -/
theorem decDigits_lt (n : Nat) : ∀ d ∈ decDigits n, d < 10 := by
  intro d hd
  unfold decDigits at hd
  by_cases h : n = 0
  · rw [if_pos h] at hd
    simp at hd
    omega
  · rw [if_neg h] at hd
    rw [List.mem_reverse] at hd
    exact Nat.digits_lt_base (by omega) hd

/-- The digit list `decDigits n` is never empty. -/
theorem decDigits_ne_nil (n : Nat) : decDigits n ≠ [] := by
  unfold decDigits
  by_cases h : n = 0
  · rw [if_pos h]; simp
  · rw [if_neg h]
    simp only [ne_eq, List.reverse_eq_nil_iff]
    exact Nat.digits_ne_nil_iff_ne_zero.mpr h

/-- Folding the decimal accumulator over the rendered digits of `n`
recovers `n`. -/
theorem foldl_decDigits (n : Nat) :
    List.foldl (fun acc d => 10 * acc + d) 0 (decDigits n) = n := by
  unfold decDigits
  by_cases h : n = 0
  · rw [if_pos h, h]; rfl
  · rw [if_neg h, foldl_reverse_ofDigits]
    simp [Nat.ofDigits_digits]

/-- Character-level folding over rendered digits agrees with numeric
folding. -/
theorem foldl_map_digitChar (l : List Nat) (h : ∀ d ∈ l, d < 10) :
    ∀ a : Nat, List.foldl (fun acc c => 10 * acc + digitVal c) a (l.map Nat.digitChar)
      = List.foldl (fun acc d => 10 * acc + d) a l := by
  induction l with
  | nil => intro a; rfl
  | cons d t ih =>
    intro a
    rw [List.map_cons, List.foldl_cons, List.foldl_cons]
    have hd : digitVal (Nat.digitChar d) = d := by
      have hd10 : d < 10 := h d (List.mem_cons_self d t)
      interval_cases d <;> rfl
    rw [hd]
    exact ih (fun x hx => h x (List.mem_cons_of_mem d hx)) _

/-- All characters of the padded frame field are decimal digits. -/
theorem zeroPadList_all_digits (frame fd : Nat) :
    (zeroPadList frame fd).all Char.isDigit = true := by
  simp only [zeroPadList, List.all_append, Bool.and_eq_true, List.all_eq_true]
  constructor
  · intro c hc
    rw [List.eq_of_mem_replicate hc]
    rfl
  · intro c hc
    rw [List.mem_map] at hc
    obtain ⟨d, hd, rfl⟩ := hc
    have hd10 : d < 10 := decDigits_lt frame d hd
    interval_cases d <;> rfl

/-- C4: parsing the zero-padded frame field of the produced filename back
to an integer recovers the frame number, for any padding width at least
the digit count of the frame. -/
theorem outputFilename_roundtrip (frame fd : Nat)
    (h : (decDigits frame).length ≤ fd) :
    parseDecimal (zeroPad frame fd) = some frame := by
  have hne : (zeroPadList frame fd).isEmpty = false := by
    have hlen : 0 < (decDigits frame).length :=
      List.length_pos.mpr (decDigits_ne_nil frame)
    have : 0 < (zeroPadList frame fd).length := by
      simp only [zeroPadList, List.length_append, List.length_replicate, List.length_map]
      omega
    cases he : zeroPadList frame fd with
    | nil => rw [he] at this; simp at this
    | cons c l => rfl
  have hall : (zeroPadList frame fd).all Char.isDigit = true :=
    zeroPadList_all_digits frame fd
  have hcond : (!(zeroPad frame fd).data.isEmpty
      && (zeroPad frame fd).data.all Char.isDigit) = true := by
    show (!(zeroPadList frame fd).isEmpty && (zeroPadList frame fd).all Char.isDigit) = true
    rw [hne, hall]
    rfl
  unfold parseDecimal
  rw [if_pos hcond]
  congr 1
  show List.foldl (fun acc c => 10 * acc + digitVal c) 0 (zeroPadList frame fd) = frame
  unfold zeroPadList
  rw [List.foldl_append, foldl_digit_replicate_zero,
    foldl_map_digitChar (decDigits frame) (decDigits_lt frame)]
  exact foldl_decDigits frame

/-- C4 witness: frame 0 padded to four digits parses back to 0. -/
theorem outputFilename_roundtrip_witness : parseDecimal (zeroPad 0 4) = some 0 :=
  outputFilename_roundtrip 0 4 (by decide)

/-- The cumulative timer after a run of `Advance` calls is the initial
value plus the sum of the measured step times. -/
theorem cum_runAdvances (ds : List ℚ) :
    ∀ n : BaseNodeState, (runAdvances n ds).m_cum_sim_time = n.m_cum_sim_time + ds.sum := by
  induction ds with
  | nil => intro n; simp [runAdvances]
  | cons d t ih =>
    intro n
    show (runAdvances (advanceTimed n d) t).m_cum_sim_time = _
    rw [ih]
    simp [advanceTimed, List.sum_cons]
    ring

/-- After the (k+1)-st `Advance` call the step timer reads the k-th
measured step time. -/
theorem timer_runAdvances_take (ds : List ℚ) :
    ∀ (k : Nat) (n : BaseNodeState), k < ds.length →
      (runAdvances n (ds.take (k + 1))).m_timer = ds.getD k 0 := by
  induction ds with
  | nil => intro k n hk; simp at hk
  | cons d t ih =>
    intro k n hk
    cases k with
    | zero => rfl
    | succ m =>
      have hm : m < t.length := by simpa using hk
      show (runAdvances (advanceTimed n d) (t.take (m + 1))).m_timer = _
      rw [ih m (advanceTimed n d) hm]
      rfl

/-- Summing the positional reads of a list over its index range gives its
sum. -/
theorem sum_range_getD (ds : List ℚ) :
    ((List.range ds.length).map (fun k => ds.getD k 0)).sum = ds.sum := by
  induction ds with
  | nil => rfl
  | cons d t ih =>
    rw [List.length_cons, List.range_succ_eq_map, List.map_cons, List.map_map]
    have hmap : (List.range t.length).map ((fun k => (d :: t).getD k 0) ∘ Nat.succ)
        = (List.range t.length).map (fun k => t.getD k 0) :=
      List.map_congr_left (fun a _ => by simp [List.getD_cons_succ])
    rw [hmap, List.sum_cons, ih]
    rfl

/-- C5: both timers are zero at construction; after any sequence of
`Advance` calls the cumulative execution time equals the sum of the
individual per-step execution times reported by
`GetStepExecutionTime` after each call; the cumulative timer never
decreases along the run. -/
theorem execution_time_sum (name : String) (ds : List ℚ)
    (h : ∀ d ∈ ds, 0 ≤ d) :
    GetStepExecutionTime (constructNode name) = 0 ∧
    GetTotalExecutionTime (constructNode name) = 0 ∧
    GetTotalExecutionTime (runAdvances (constructNode name) ds)
      = ((List.range ds.length).map
          (fun k => GetStepExecutionTime (runAdvances (constructNode name) (ds.take (k + 1))))).sum ∧
    ∀ i j, i ≤ j →
      GetTotalExecutionTime (runAdvances (constructNode name) (ds.take i))
        ≤ GetTotalExecutionTime (runAdvances (constructNode name) (ds.take j)) := by
  refine ⟨rfl, rfl, ?_, ?_⟩
  · have hmap : (List.range ds.length).map
        (fun k => GetStepExecutionTime (runAdvances (constructNode name) (ds.take (k + 1))))
        = (List.range ds.length).map (fun k => ds.getD k 0) :=
      List.map_congr_left fun k hk =>
        timer_runAdvances_take ds k (constructNode name) (List.mem_range.mp hk)
    rw [hmap, sum_range_getD]
    show (runAdvances (constructNode name) ds).m_cum_sim_time = ds.sum
    rw [cum_runAdvances]
    simp [constructNode]
  · intro i j hij
    show (runAdvances (constructNode name) (ds.take i)).m_cum_sim_time
      ≤ (runAdvances (constructNode name) (ds.take j)).m_cum_sim_time
    rw [cum_runAdvances, cum_runAdvances]
    have hsplit : ds.take j = ds.take i ++ (ds.drop i).take (j - i) := by
      rw [← List.take_add]
      congr 1
      omega
    rw [hsplit, List.sum_append]
    have hrest : 0 ≤ ((ds.drop i).take (j - i)).sum :=
      List.sum_nonneg fun x hx =>
        h x (List.drop_subset i ds (List.take_subset (j - i) (ds.drop i) hx))
    linarith

/-- C5 witness: two `Advance` calls of measured times 1 and 2. -/
theorem execution_time_sum_witness :
    GetStepExecutionTime (constructNode "n") = 0 ∧
    GetTotalExecutionTime (constructNode "n") = 0 ∧
    GetTotalExecutionTime (runAdvances (constructNode "n") [1, 2])
      = ((List.range ([1, 2] : List ℚ).length).map
          (fun k => GetStepExecutionTime
            (runAdvances (constructNode "n") (([1, 2] : List ℚ).take (k + 1))))).sum ∧
    ∀ i j, i ≤ j →
      GetTotalExecutionTime (runAdvances (constructNode "n") (([1, 2] : List ℚ).take i))
        ≤ GetTotalExecutionTime (runAdvances (constructNode "n") (([1, 2] : List ℚ).take j)) :=
  execution_time_sum "n" [1, 2] (by
    intro d hd
    simp only [List.mem_cons, List.not_mem_nil, or_false] at hd
    rcases hd with rfl | rfl <;> norm_num)

/-- C6: `Advance` emits no cross-node message: its communication trace is
empty for every step size, and inserting an `Advance` call anywhere in an
operation sequence leaves the sequence's communication trace unchanged. -/
theorem advance_no_communication (num_tires : Nat) (d : ℚ)
    (ops ops2 : List CosimOp) :
    emits num_tires (CosimOp.advance d) = [] ∧
    runTrace num_tires (ops ++ CosimOp.advance d :: ops2)
      = runTrace num_tires (ops ++ ops2) := by
  refine ⟨rfl, ?_⟩
  simp [runTrace, List.flatMap_append, List.flatMap_cons, emits]

/-- C10: the base-class `WriteCheckpoint` is a no-op: for every node
state and filename it leaves every field unchanged and creates no file. -/
theorem writeCheckpoint_noop (n : BaseNodeState) (filename : String) :
    (WriteCheckpoint n filename).1 = n ∧ (WriteCheckpoint n filename).2 = [] :=
  ⟨rfl, rfl⟩

/-- A successful lifecycle transition never returns to the uninitialized
state. -/
theorem lifecycleStep_ok_ne_uninit (s : LifecycleState) (op : CosimOp)
    (s1 : LifecycleState) (h : lifecycleStep s op = .ok s1) :
    s1 ≠ LifecycleState.uninitialized := by
  cases s <;> cases op <;> simp_all [lifecycleStep] <;> exact fun hc => by subst h; cases hc

/-- An accepted run from any state other than uninitialized contains no
`Initialize` call. -/
theorem countInit_eq_zero_of_run (ops : List CosimOp) :
    ∀ s s1 : LifecycleState, s ≠ LifecycleState.uninitialized →
      runFrom s ops = .ok s1 → countInit ops = 0 := by
  induction ops with
  | nil => intro s s1 _ _; rfl
  | cons op t ih =>
    intro s s1 hs h
    cases hstep : lifecycleStep s op with
    | error e =>
      rw [runFrom, hstep] at h
      cases h
    | ok s2 =>
      have h' : runFrom s2 t = .ok s1 := by
        rw [runFrom, hstep] at h
        exact h
      have hop : isInit op = false := by
        cases op with
        | init =>
          exfalso
          cases s with
          | uninitialized => exact hs rfl
          | initialized => simp [lifecycleStep] at hstep
          | synchronized => simp [lifecycleStep] at hstep
          | advanced => simp [lifecycleStep] at hstep
        | synchronize k t2 => rfl
        | advance d => rfl
        | outputData f => rfl
        | writeCheckpoint f => rfl
      have hs2 : s2 ≠ LifecycleState.uninitialized :=
        lifecycleStep_ok_ne_uninit s op s2 hstep
      have ht : countInit t = 0 := ih s2 s1 hs2 h'
      show (op :: t).countP isInit = 0
      rw [List.countP_cons, hop]
      simpa [countInit] using ht

/-- C7: `Advance` or `Synchronize` before `Initialize` and `Advance`
before the first `Synchronize` are fatal precondition violations; in any
accepted run that synchronizes, `Initialize` was called exactly once, and
exactly once before the first `Synchronize`. -/
theorem lifecycle_preconditions (ops : List CosimOp) (s1 : LifecycleState)
    (h : runLifecycle ops = .ok s1) (hs : ops.any isSync = true) :
    (∀ d, lifecycleStep LifecycleState.uninitialized (CosimOp.advance d)
      = .error ProtocolError.beforeInit) ∧
    (∀ k t, lifecycleStep LifecycleState.uninitialized (CosimOp.synchronize k t)
      = .error ProtocolError.beforeInit) ∧
    (∀ d, lifecycleStep LifecycleState.initialized (CosimOp.advance d)
      = .error ProtocolError.advanceBeforeSync) ∧
    countInit ops = 1 ∧
    countInit (beforeFirstSync ops) = 1 := by
  cases ops with
  | nil => simp at hs
  | cons op t =>
    have hstep : ∃ s2, lifecycleStep LifecycleState.uninitialized op = .ok s2 ∧
        runFrom s2 t = .ok s1 := by
      rw [runLifecycle] at h
      cases hst : lifecycleStep LifecycleState.uninitialized op with
      | ok s2 =>
        refine ⟨s2, rfl, ?_⟩
        rw [runFrom, hst] at h
        exact h
      | error e =>
        rw [runFrom, hst] at h
        cases h
    obtain ⟨s2, hok, hrest⟩ := hstep
    have hop : op = CosimOp.init := by
      cases op with
      | init => rfl
      | synchronize k t2 => simp [lifecycleStep] at hok
      | advance d => simp [lifecycleStep] at hok
      | outputData f => simp [lifecycleStep] at hok
      | writeCheckpoint f => simp [lifecycleStep] at hok
    subst hop
    have hs2 : s2 = LifecycleState.initialized := by
      have : Except.ok (ε := ProtocolError) LifecycleState.initialized = .ok s2 := hok
      simpa using this.symm
    subst hs2
    have hcount : countInit t = 0 :=
      countInit_eq_zero_of_run t LifecycleState.initialized s1 (by simp) hrest
    refine ⟨fun d => rfl, fun k t2 => rfl, fun d => rfl, ?_, ?_⟩
    · show (CosimOp.init :: t).countP isInit = 1
      rw [List.countP_cons]
      have ht : t.countP isInit = 0 := hcount
      simp [isInit, ht]
    · have hb : beforeFirstSync (CosimOp.init :: t)
          = CosimOp.init :: beforeFirstSync t := by
        simp [beforeFirstSync, List.takeWhile_cons, isSync]
      rw [hb]
      have hle : countInit (beforeFirstSync t) ≤ countInit t :=
        (List.takeWhile_sublist _).countP_le isInit
      have h0 : countInit (beforeFirstSync t) = 0 := by omega
      show (CosimOp.init :: beforeFirstSync t).countP isInit = 1
      rw [List.countP_cons]
      have ht0 : (beforeFirstSync t).countP isInit = 0 := h0
      simp [isInit, ht0]

/-- C7 witness: the run Initialize, Synchronize is accepted, and in it
Initialize occurs exactly once before the first Synchronize. -/
theorem lifecycle_preconditions_witness :
    (∀ d, lifecycleStep LifecycleState.uninitialized (CosimOp.advance d)
      = .error ProtocolError.beforeInit) ∧
    (∀ k t, lifecycleStep LifecycleState.uninitialized (CosimOp.synchronize k t)
      = .error ProtocolError.beforeInit) ∧
    (∀ d, lifecycleStep LifecycleState.initialized (CosimOp.advance d)
      = .error ProtocolError.advanceBeforeSync) ∧
    countInit [CosimOp.init, CosimOp.synchronize 0 0] = 1 ∧
    countInit (beforeFirstSync [CosimOp.init, CosimOp.synchronize 0 0]) = 1 :=
  lifecycle_preconditions [CosimOp.init, CosimOp.synchronize 0 0]
    LifecycleState.synchronized (by rfl) (by rfl)

/-- C8: a `MeshContact` produced in a `Synchronize` round has a contact
vertex count bounded by the `MeshState` length (the negotiated
`MeshData` vertex count), counts exactly its index/force lists, and every
vertex index lies in the valid range `[0, vertex_count)`. -/
theorem mesh_contact_indices_valid (geometry : MeshData) (st : MeshState)
    (forces : List (ChVector ℚ))
    (hst : st.vpos.length = geometry.nv)
    (hf : forces.length = st.vpos.length) :
    (mkMeshContact forces).nv ≤ (st.vpos.length : Int) ∧
    ((mkMeshContact forces).vidx.length : Int) = (mkMeshContact forces).nv ∧
    (mkMeshContact forces).vforce.length = (mkMeshContact forces).vidx.length ∧
    ∀ v ∈ (mkMeshContact forces).vidx, 0 ≤ v ∧ v < (geometry.nv : Int) := by
  have hnv : (mkMeshContact forces).nv
      = (((List.range forces.length).filter
          (fun i => decide (forces.getD i zeroVec ≠ zeroVec))).length : Int) := rfl
  have hvidx : (mkMeshContact forces).vidx
      = ((List.range forces.length).filter
          (fun i => decide (forces.getD i zeroVec ≠ zeroVec))).map Int.ofNat := rfl
  have hvforce : (mkMeshContact forces).vforce
      = ((List.range forces.length).filter
          (fun i => decide (forces.getD i zeroVec ≠ zeroVec))).map
            (fun i => forces.getD i zeroVec) := rfl
  have hle : ((List.range forces.length).filter
      (fun i => decide (forces.getD i zeroVec ≠ zeroVec))).length ≤ forces.length := by
    calc ((List.range forces.length).filter
          (fun i => decide (forces.getD i zeroVec ≠ zeroVec))).length
        ≤ (List.range forces.length).length := List.length_filter_le _ _
      _ = forces.length := List.length_range forces.length
  refine ⟨?_, ?_, ?_, ?_⟩
  · rw [hnv]
    omega
  · rw [hnv, hvidx, List.length_map]
  · rw [hvidx, hvforce, List.length_map, List.length_map]
  · intro v hv
    rw [hvidx, List.mem_map] at hv
    obtain ⟨i, hi, rfl⟩ := hv
    rw [List.mem_filter, List.mem_range] at hi
    have hig : i < geometry.nv := by omega
    constructor
    · exact Int.ofNat_nonneg i
    · show ((i : Nat) : Int) < ((geometry.nv : Nat) : Int)
      exact_mod_cast hig

/-- C8 witness: a two-vertex mesh with contact force on vertex 1 only. -/
theorem mesh_contact_indices_valid_witness :
    (mkMeshContact [zeroVec, ⟨1, 0, 0⟩]).nv ≤ (2 : Int) ∧
    ((mkMeshContact [zeroVec, ⟨1, 0, 0⟩]).vidx.length : Int)
      = (mkMeshContact [zeroVec, ⟨1, 0, 0⟩]).nv ∧
    (mkMeshContact [zeroVec, ⟨1, 0, 0⟩]).vforce.length
      = (mkMeshContact [zeroVec, ⟨1, 0, 0⟩]).vidx.length ∧
    ∀ v ∈ (mkMeshContact [zeroVec, ⟨1, 0, 0⟩]).vidx, 0 ≤ v ∧ v < (2 : Int) :=
  mesh_contact_indices_valid
    ⟨2, 0, 0, [], [], [], []⟩
    ⟨[zeroVec, zeroVec], [zeroVec, zeroVec]⟩
    [zeroVec, ⟨1, 0, 0⟩] (by rfl) (by rfl)

/-- A run of configuration calls without `SetStepSize` leaves the step
size unchanged. -/
theorem stepSize_of_noSetStep (ops : List ConfigOp) :
    ∀ n : BaseNodeState, noSetStep ops = true →
      GetStepSize (ops.foldl applyConfigOp n) = GetStepSize n := by
  induction ops with
  | nil => intro n _; rfl
  | cons op t ih =>
    intro n hop
    cases op with
    | setStep s => simp [noSetStep] at hop
    | setVerbose v =>
      have ht : noSetStep t = true := by
        simpa [noSetStep] using hop
      show GetStepSize (t.foldl applyConfigOp (applyConfigOp n (.setVerbose v))) = _
      rw [ih _ ht]
      rfl

/-- C9: `GetStepSize` returns the value most recently passed to
`SetStepSize`; before any `SetStepSize` call it returns the construction
default 1e-4, and verbosity defaults to enabled. -/
theorem step_size_config (name : String) (ops0 pre post : List ConfigOp) (s : ℚ)
    (h0 : noSetStep ops0 = true) (hpost : noSetStep post = true) :
    (∀ (n : BaseNodeState) (st : ℚ), GetStepSize (SetStepSize n st) = st) ∧
    (∀ (n : BaseNodeState) (v : Bool), GetStepSize (SetVerbose n v) = GetStepSize n) ∧
    GetStepSize (constructNode name) = 1 / 10000 ∧
    (constructNode name).m_verbose = true ∧
    GetStepSize (applyConfigOps name ops0) = 1 / 10000 ∧
    GetStepSize (applyConfigOps name (pre ++ ConfigOp.setStep s :: post)) = s := by
  refine ⟨fun n st => rfl, fun n v => rfl, rfl, rfl, ?_, ?_⟩
  · show GetStepSize (ops0.foldl applyConfigOp (constructNode name)) = 1 / 10000
    rw [stepSize_of_noSetStep ops0 _ h0]
    rfl
  · show GetStepSize
      ((pre ++ ConfigOp.setStep s :: post).foldl applyConfigOp (constructNode name)) = s
    rw [List.foldl_append, List.foldl_cons]
    rw [stepSize_of_noSetStep post _ hpost]
    rfl

/-- C9 witness: a set to 1/2 followed by verbosity toggles reads back
1/2, and the defaults hold. -/
theorem step_size_config_witness :
    (∀ (n : BaseNodeState) (st : ℚ), GetStepSize (SetStepSize n st) = st) ∧
    (∀ (n : BaseNodeState) (v : Bool), GetStepSize (SetVerbose n v) = GetStepSize n) ∧
    GetStepSize (constructNode "n") = 1 / 10000 ∧
    (constructNode "n").m_verbose = true ∧
    GetStepSize (applyConfigOps "n" [ConfigOp.setVerbose false]) = 1 / 10000 ∧
    GetStepSize (applyConfigOps "n"
      ([ConfigOp.setVerbose false] ++ ConfigOp.setStep (1 / 2)
        :: [ConfigOp.setVerbose true])) = 1 / 2 :=
  step_size_config "n" [ConfigOp.setVerbose false] [ConfigOp.setVerbose false]
    [ConfigOp.setVerbose true] (1 / 2) (by rfl) (by rfl)

end ChronoCosim
